import Mathlib

/-!
Verification of the Solana-Mini runtime core against its specification.

The development shallowly embeds the Rust sources:
  src/types/account.rs, src/types/transaction.rs, src/runtime/accounts_db.rs,
  src/programs/system.rs, src/svm.rs, src/runtime/bank.rs, src/runtime/poh.rs.
Bytes are `Nat` values (< 256 by construction where produced by the code),
u64/u32/u16/u8 arithmetic is `Nat` with explicit reduction modulo 2^w at the
points where Rust wraps, and fallible paths return `Option`/`Except`.
The sha2 crate used by poh.rs is embedded as the standard FIPS 180-4 SHA-256
over byte lists, validated below against the well-known test vectors.
-/

set_option maxRecDepth 100000

/-! ## SHA-256 (FIPS 180-4), the semantics of the sha2 crate used by poh.rs -/

/-- Reduce to a 32-bit word. -/
def u32 (x : Nat) : Nat := x % 4294967296

/-- Right-rotation of a 32-bit word by n bits (x must be < 2^32). -/
def rotr32 (n x : Nat) : Nat := x / 2 ^ n + x % 2 ^ n * 2 ^ (32 - n)

/-- Logical right shift. -/
def shr32 (n x : Nat) : Nat := x / 2 ^ n

/-- Bitwise complement of a 32-bit word. -/
def not32 (x : Nat) : Nat := 4294967295 - x

/-- SHA-256 Ch function. -/
def ch32 (e f g : Nat) : Nat := Nat.xor (Nat.land e f) (Nat.land (not32 e) g)

/-- SHA-256 Maj function. -/
def maj32 (a b c : Nat) : Nat :=
  Nat.xor (Nat.xor (Nat.land a b) (Nat.land a c)) (Nat.land b c)

/-- SHA-256 big sigma 0. -/
def bsig0 (x : Nat) : Nat := Nat.xor (Nat.xor (rotr32 2 x) (rotr32 13 x)) (rotr32 22 x)

/-- SHA-256 big sigma 1. -/
def bsig1 (x : Nat) : Nat := Nat.xor (Nat.xor (rotr32 6 x) (rotr32 11 x)) (rotr32 25 x)

/-- SHA-256 small sigma 0. -/
def ssig0 (x : Nat) : Nat := Nat.xor (Nat.xor (rotr32 7 x) (rotr32 18 x)) (shr32 3 x)

/-- SHA-256 small sigma 1. -/
def ssig1 (x : Nat) : Nat := Nat.xor (Nat.xor (rotr32 17 x) (rotr32 19 x)) (shr32 10 x)

/-- The 64 SHA-256 round constants (FIPS 180-4 section 4.2.2), in decimal. -/
def sha256K : List Nat :=
  [1116352408, 1899447441, 3049323471, 3921009573,
   961987163, 1508970993, 2453635748, 2870763221,
   3624381080, 310598401, 607225278, 1426881987,
   1925078388, 2162078206, 2614888103, 3248222580,
   3835390401, 4022224774, 264347078, 604807628,
   770255983, 1249150122, 1555081692, 1996064986,
   2554220882, 2821834349, 2952996808, 3210313671,
   3336571891, 3584528711, 113926993, 338241895,
   666307205, 773529912, 1294757372, 1396182291,
   1695183700, 1986661051, 2177026350, 2456956037,
   2730485921, 2820302411, 3259730800, 3345764771,
   3516065817, 3600352804, 4094571909, 275423344,
   430227734, 506948616, 659060556, 883997877,
   958139571, 1322822218, 1537002063, 1747873779,
   1955562222, 2024104815, 2227730452, 2361852424,
   2428436474, 2756734187, 3204031479, 3329325298]

/-- The initial SHA-256 hash state (FIPS 180-4 section 5.3.3), in decimal. -/
def sha256H0 : List Nat :=
  [1779033703, 3144134277, 1013904242, 2773480762,
   1359893119, 2600822924, 528734635, 1541459225]

/-- Group a byte list into big-endian 32-bit words, four bytes per word. -/
def toWordsBE : List Nat → List Nat
  | b0 :: b1 :: b2 :: b3 :: rest =>
      (b0 * 16777216 + b1 * 65536 + b2 * 256 + b3) :: toWordsBE rest
  | _ => []

/-- Extend the 16-word schedule by n further words (FIPS 180-4 section 6.2.2). -/
def extendSchedule (w : List Nat) : Nat → List Nat
  | 0 => w
  | n + 1 =>
      extendSchedule
        (w ++ [u32 (ssig1 (w.getD (w.length - 2) 0) + w.getD (w.length - 7) 0 +
                    ssig0 (w.getD (w.length - 15) 0) + w.getD (w.length - 16) 0)]) n

/-- One SHA-256 round on the eight-word working state. -/
def sha256Round (st : List Nat) (kt wt : Nat) : List Nat :=
  match st with
  | [a, b, c, d, e, f, g, h] =>
      let t1 := u32 (h + bsig1 e + ch32 e f g + kt + wt)
      let t2 := u32 (bsig0 a + maj32 a b c)
      [u32 (t1 + t2), a, b, c, u32 (d + t1), e, f, g]
  | other => other

/-- Fold the 64 rounds over the paired round constants and schedule words. -/
def sha256Rounds (st : List Nat) : List (Nat × Nat) → List Nat
  | [] => st
  | (kt, wt) :: rest => sha256Rounds (sha256Round st kt wt) rest

/-- Compress one 64-byte block into the running state. -/
def sha256Compress (st : List Nat) (block : List Nat) : List Nat :=
  let w := extendSchedule (toWordsBE block) 48
  let st2 := sha256Rounds st (sha256K.zip w)
  (st.zip st2).map fun p => u32 (p.1 + p.2)

/-- Big-endian 8-byte encoding of a 64-bit length. -/
def be64 (n : Nat) : List Nat :=
  [n / 2 ^ 56 % 256, n / 2 ^ 48 % 256, n / 2 ^ 40 % 256, n / 2 ^ 32 % 256,
   n / 2 ^ 24 % 256, n / 2 ^ 16 % 256, n / 2 ^ 8 % 256, n % 256]

/-- SHA-256 padding: 0x80, zeros, then the 64-bit big-endian bit length. -/
def padMessage (msg : List Nat) : List Nat :=
  msg ++ [128] ++ List.replicate ((120 - (msg.length + 1) % 64) % 64) 0 ++
    be64 (msg.length * 8)

/-- Run the compression function over n successive 64-byte blocks. -/
def sha256Blocks (st : List Nat) (msg : List Nat) : Nat → List Nat
  | 0 => st
  | n + 1 => sha256Blocks (sha256Compress st (msg.take 64)) (msg.drop 64) n

/-- Serialize the eight-word state to 32 big-endian bytes. -/
def stateToBytes (st : List Nat) : List Nat :=
  st.flatMap fun wd => [wd / 16777216 % 256, wd / 65536 % 256, wd / 256 % 256, wd % 256]

/-- SHA-256 of a byte list, exactly as computed by the sha2 crate.
The padded message length is an exact multiple of 64, so running the
compression over length / 64 blocks consumes it entirely. -/
def sha256 (msg : List Nat) : List Nat :=
  stateToBytes (sha256Blocks sha256H0 (padMessage msg) ((padMessage msg).length / 64))

/-! ## Account model — src/types/account.rs -/

/-- A 32-byte address (account.rs, struct Pubkey). -/
structure Pubkey where
  bytes : List Nat
deriving DecidableEq, Repr

/-- The all-zeros address of the System program (system.rs, SYSTEM_PROGRAM_ID;
equals Pubkey::default()). -/
def SYSTEM_PROGRAM_ID : Pubkey := ⟨List.replicate 32 0⟩

/-- The shared account record (account.rs, struct AccountSharedData).
The Arc copy-on-write wrapper is a memory optimisation with value semantics,
so the data buffer is embedded as a plain byte list. -/
structure AccountSharedData where
  lamports : Nat
  data : List Nat
  owner : Pubkey
  executable : Bool
  rent_epoch : Nat
deriving DecidableEq, Repr

/-- AccountSharedData::default(): zero balance, empty data, zero owner. -/
def defaultAccount : AccountSharedData :=
  { lamports := 0, data := [], owner := SYSTEM_PROGRAM_ID,
    executable := false, rent_epoch := 0 }

instance : Inhabited AccountSharedData := ⟨defaultAccount⟩

/-! ## Account store — src/runtime/accounts_db.rs. The HashMap is embedded
extensionally as a partial map from addresses to accounts. -/

/-- The accounts state store (accounts_db.rs, struct AccountsDB). -/
structure AccountsDB where
  accounts : Pubkey → Option AccountSharedData

/-- AccountsDB::new — the empty store. -/
def AccountsDB.new : AccountsDB := ⟨fun _ => none⟩

/-- AccountsDB::load — read an account, None if absent. -/
def AccountsDB.load (db : AccountsDB) (pubkey : Pubkey) : Option AccountSharedData :=
  db.accounts pubkey

/-- AccountsDB::store — unconditional overwrite at an address. -/
def AccountsDB.store (db : AccountsDB) (pubkey : Pubkey) (account : AccountSharedData) :
    AccountsDB :=
  ⟨fun q => if q = pubkey then some account else db.accounts q⟩

/-- AccountsDB::delete — remove an address. -/
def AccountsDB.delete (db : AccountsDB) (pubkey : Pubkey) : AccountsDB :=
  ⟨fun q => if q = pubkey then none else db.accounts q⟩

/-- AccountsDB::contains. -/
def AccountsDB.contains (db : AccountsDB) (pubkey : Pubkey) : Bool :=
  (db.accounts pubkey).isSome

/-! ## Transaction model — src/types/transaction.rs -/

/-- A 64-byte Ed25519 signature (transaction.rs, struct Signature). -/
structure Signature where
  bytes : List Nat
deriving DecidableEq, Repr

/-- A 32-byte hash value used as the recent blockhash (transaction.rs, struct Hash). -/
structure Hash where
  bytes : List Nat
deriving DecidableEq, Repr

/-- transaction.rs, struct MessageHeader. All three fields are u8 in the source;
they are embedded as Nat and are below 256 in every value the program builds. -/
structure MessageHeader where
  num_required_signatures : Nat
  num_readonly_signed_accounts : Nat
  num_readonly_unsigned_accounts : Nat
deriving DecidableEq, Repr

/-- transaction.rs, struct CompiledInstruction. The u8 index fields are Nats. -/
structure CompiledInstruction where
  program_id_index : Nat
  accounts : List Nat
  data : List Nat
deriving DecidableEq, Repr

/-- transaction.rs, struct Message. -/
structure Message where
  header : MessageHeader
  account_keys : List Pubkey
  recent_blockhash : Hash
  instructions : List CompiledInstruction
deriving DecidableEq, Repr

/-- transaction.rs, struct Transaction. -/
structure Transaction where
  signatures : List Signature
  message : Message
deriving DecidableEq, Repr

/-- Message::is_signer — signers are the first num_required_signatures keys. -/
def Message.is_signer (m : Message) (index : Nat) : Bool :=
  index < m.header.num_required_signatures

/-- Message::is_writable. The two usize subtractions are embedded as truncated
Nat subtraction; in Rust they would underflow (debug panic) only when the
header violates num_readonly_signed <= num_required_signatures or
num_readonly_unsigned <= total. -/
def Message.is_writable (m : Message) (index : Nat) : Bool :=
  let num_signers := m.header.num_required_signatures
  let num_readonly_signed := m.header.num_readonly_signed_accounts
  let num_readonly_unsigned := m.header.num_readonly_unsigned_accounts
  let total := m.account_keys.length
  if index < num_signers then
    index < num_signers - num_readonly_signed
  else
    index < total - num_readonly_unsigned

/-! ## System program — src/programs/system.rs -/

/-- system.rs, enum SystemInstruction. -/
inductive SystemInstruction
  | createAccount (lamports : Nat) (space : Nat) (owner : Pubkey)
  | transfer (lamports : Nat)
  | assign (owner : Pubkey)
deriving DecidableEq, Repr

/-- system.rs, enum SystemProgramError. -/
inductive SystemProgramError
  | invalidInstructionData
  | unknownInstruction (disc : Nat)
  | insufficientFunds
  | accountAlreadyInUse
  | accountNotOwnedBySystem
  | notEnoughAccounts
deriving DecidableEq, Repr

/-- Little-endian value of a byte list (u32::from_le_bytes / u64::from_le_bytes
applied to the 4- or 8-byte slices carved out by decode). -/
def leNat (bs : List Nat) : Nat := bs.foldr (fun b acc => b + 256 * acc) 0

/-- system.rs, fn decode — parse raw instruction bytes. -/
def decode (data : List Nat) : Except SystemProgramError SystemInstruction :=
  if data.length < 4 then .error .invalidInstructionData
  else
    let discriminator := leNat (data.take 4)
    if discriminator = 0 then
      if data.length < 52 then .error .invalidInstructionData
      else .ok (.createAccount (leNat ((data.drop 4).take 8))
                               (leNat ((data.drop 12).take 8))
                               ⟨(data.drop 20).take 32⟩)
    else if discriminator = 2 then
      if data.length < 12 then .error .invalidInstructionData
      else .ok (.transfer (leNat ((data.drop 4).take 8)))
    else if discriminator = 8 then
      if data.length < 36 then .error .invalidInstructionData
      else .ok (.assign ⟨(data.drop 4).take 32⟩)
    else .error (.unknownInstruction discriminator)

/-- Vec::resize(n, 0) on the data buffer: truncate or extend with zero bytes. -/
def listResize (l : List Nat) (n : Nat) : List Nat :=
  if n ≤ l.length then l.take n else l ++ List.replicate (n - l.length) 0

/-- system.rs, fn process — run a decoded instruction over the account slice,
returning the updated slice. The Transfer credit is the unchecked u64 addition
of the source, embedded with Rust release-mode wrapping (mod 2^64); debug
builds would panic at that point instead of returning an error. -/
def process (instruction : SystemInstruction) (accounts : List AccountSharedData) :
    Except SystemProgramError (List AccountSharedData) :=
  match instruction with
  | .createAccount lamports space owner =>
    match accounts with
    | a0 :: a1 :: rest =>
      if a1.lamports > 0 ∨ a1.data ≠ [] then .error .accountAlreadyInUse
      else if a0.owner ≠ SYSTEM_PROGRAM_ID then .error .accountNotOwnedBySystem
      else if a0.lamports < lamports then .error .insufficientFunds
      else .ok ({ a0 with lamports := a0.lamports - lamports } ::
                { a1 with lamports := lamports, owner := owner,
                          data := listResize a1.data space } :: rest)
    | _ => .error .notEnoughAccounts
  | .transfer lamports =>
    match accounts with
    | a0 :: a1 :: rest =>
      if a0.owner ≠ SYSTEM_PROGRAM_ID then .error .accountNotOwnedBySystem
      else if a0.lamports < lamports then .error .insufficientFunds
      else .ok ({ a0 with lamports := a0.lamports - lamports } ::
                { a1 with lamports := (a1.lamports + lamports) % 18446744073709551616 } ::
                rest)
    | _ => .error .notEnoughAccounts
  | .assign owner =>
    match accounts with
    | a0 :: rest =>
      if a0.owner ≠ SYSTEM_PROGRAM_ID then .error .accountNotOwnedBySystem
      else .ok ({ a0 with owner := owner } :: rest)
    | [] => .error .notEnoughAccounts

/-! ## Virtual machine — src/svm.rs -/

/-- svm.rs, enum SvmError. -/
inductive SvmError
  | invalidAccountIndex (instruction : Nat) (index : Nat)
  | unknownProgram (instruction : Nat)
  | systemProgram (instruction : Nat) (error : SystemProgramError)
deriving DecidableEq, Repr

/-- Step 1 of execute: load every account key into the local working set,
defaulting missing accounts (load(pubkey).cloned().unwrap_or_default()). -/
def loadWorkingSet (db : AccountsDB) (m : Message) : List AccountSharedData :=
  m.account_keys.map fun pubkey => (db.load pubkey).getD defaultAccount

/-- Clone the instruction accounts out of the working set, failing on the
first out-of-range index (the collect::<Result> in execute step 2b). -/
def gatherIxAccounts (ws : List AccountSharedData) (ixIndex : Nat) :
    List Nat → Except SvmError (List AccountSharedData)
  | [] => .ok []
  | i :: rest =>
    match ws.get? i with
    | none => .error (.invalidAccountIndex ixIndex i)
    | some a => (gatherIxAccounts ws ixIndex rest).map (a :: ·)

/-- Write the instruction accounts back into the working set at their original
indices, in order (execute step 2e; last write wins on duplicate indices). -/
def writeBack (ws : List AccountSharedData) :
    List Nat → List AccountSharedData → List AccountSharedData
  | i :: is, a :: rest => writeBack (ws.set i a) is rest
  | _, _ => ws

/-- The instruction loop of execute (step 2), threading the working set. -/
def executeInstructions (m : Message) (ws : List AccountSharedData)
    (ixIndex : Nat) : List CompiledInstruction → Except SvmError (List AccountSharedData)
  | [] => .ok ws
  | instruction :: rest =>
    match m.account_keys.get? instruction.program_id_index with
    | none => .error (.invalidAccountIndex ixIndex instruction.program_id_index)
    | some program_id =>
      match gatherIxAccounts ws ixIndex instruction.accounts with
      | .error e => .error e
      | .ok ixAccounts =>
        if program_id = SYSTEM_PROGRAM_ID then
          match decode instruction.data with
          | .error e => .error (.systemProgram ixIndex e)
          | .ok decoded =>
            match process decoded ixAccounts with
            | .error e => .error (.systemProgram ixIndex e)
            | .ok ixAccounts2 =>
              executeInstructions m (writeBack ws instruction.accounts ixAccounts2)
                (ixIndex + 1) rest
        else .error (.unknownProgram ixIndex)

/-- Step 3 of execute: store every (key, account) pair of the working set. -/
def commit (db : AccountsDB) : List Pubkey → List AccountSharedData → AccountsDB
  | k :: ks, a :: rest => commit (db.store k a) ks rest
  | _, _ => db

/-- svm.rs, fn execute. The Rust function mutates the store through &mut; the
embedding threads the store explicitly and returns it alongside the result. -/
def execute (tx : Transaction) (db : AccountsDB) : Except SvmError Unit × AccountsDB :=
  let message := tx.message
  let working_set := loadWorkingSet db message
  match executeInstructions message working_set 0 message.instructions with
  | .error e => (.error e, db)
  | .ok ws => (.ok (), commit db message.account_keys ws)

/-! ## Bank — src/runtime/bank.rs -/

/-- bank.rs, enum BankError. -/
inductive BankError
  | notEnoughSignatures (expected : Nat) (got : Nat)
  | invalidPublicKey (index : Nat)
  | signatureVerificationFailed (index : Nat)
deriving DecidableEq, Repr

/-- The two bytes of (n as u16).to_le_bytes(). -/
def le16 (n : Nat) : List Nat := [n % 256, n / 256 % 256]

/-- bank.rs, fn serialize_message — the canonical byte encoding, translated
loop by loop (Vec pushes and extends become list appends; the as-u8 and
as-u16 length casts become reduction mod 256 and mod 65536). -/
def serialize_message (msg : Message) : List Nat :=
  let buf := [msg.header.num_required_signatures,
              msg.header.num_readonly_signed_accounts,
              msg.header.num_readonly_unsigned_accounts]
  let buf := buf ++ [msg.account_keys.length % 256]
  let buf := msg.account_keys.foldl (fun b key => b ++ key.bytes) buf
  let buf := buf ++ msg.recent_blockhash.bytes
  let buf := buf ++ [msg.instructions.length % 256]
  msg.instructions.foldl
    (fun b ix =>
      b ++ [ix.program_id_index] ++ [ix.accounts.length % 256] ++ ix.accounts ++
        le16 ix.data.length ++ ix.data)
    buf

/-- The signer loop of verify_signatures, for the remaining count n starting
at index i. The ed25519_dalek crate is abstracted by the two parameters:
parse (VerifyingKey::from_bytes, None on an invalid key) and verif
(VerifyingKey::verify of a signature over the message bytes). A none result
models a Rust index panic (account_keys[i] or signatures[i] out of bounds). -/
def verifySignaturesFrom {VK : Type} (parse : List Nat → Option VK)
    (verif : VK → List Nat → List Nat → Bool) (messageBytes : List Nat)
    (keys : List Pubkey) (sigs : List Signature) (i : Nat) :
    Nat → Option (Except BankError Unit)
  | 0 => some (.ok ())
  | n + 1 =>
    match keys.get? i with
    | none => none
    | some pubkey =>
      match sigs.get? i with
      | none => none
      | some sig =>
        match parse pubkey.bytes with
        | none => some (.error (.invalidPublicKey i))
        | some vk =>
          if verif vk messageBytes sig.bytes then
            verifySignaturesFrom parse verif messageBytes keys sigs (i + 1) n
          else some (.error (.signatureVerificationFailed i))

/-- bank.rs, fn verify_signatures. -/
def verify_signatures {VK : Type} (parse : List Nat → Option VK)
    (verif : VK → List Nat → List Nat → Bool) (tx : Transaction) :
    Option (Except BankError Unit) :=
  let num_required := tx.message.header.num_required_signatures
  if tx.signatures.length < num_required then
    some (.error (.notEnoughSignatures num_required tx.signatures.length))
  else
    verifySignaturesFrom parse verif (serialize_message tx.message)
      tx.message.account_keys tx.signatures 0 num_required

/-! ## Proof of History — src/runtime/poh.rs -/

/-- poh.rs, struct Entry. -/
structure Entry where
  num_hashes : Nat
  hash : List Nat
  transactions : List Transaction
deriving DecidableEq, Repr

/-- poh.rs, struct PohGenerator. -/
structure PohGenerator where
  current_hash : List Nat
  num_hashes : Nat
  entries : List Entry
  hashes_per_tick : Nat
deriving DecidableEq, Repr

/-- PohGenerator::new — current_hash = sha256(seed), counter 0, no entries. -/
def PohGenerator.new (seed : List Nat) (hashes_per_tick : Nat) : PohGenerator :=
  { current_hash := sha256 seed, num_hashes := 0, entries := [],
    hashes_per_tick := hashes_per_tick }

/-- n-fold iteration of sha256, the plain hash loops of tick and verify. -/
def iterSha : Nat → List Nat → List Nat
  | 0, h => h
  | n + 1, h => iterSha n (sha256 h)

/-- poh.rs, fn hash_transactions — per transaction, the concatenated signature
bytes, or the concatenated account_keys bytes for a transaction that carries
no signatures; all fed to one SHA-256. -/
def hash_transactions (transactions : List Transaction) : List Nat :=
  sha256 (transactions.flatMap fun tx =>
    if tx.signatures ≠ [] then tx.signatures.flatMap Signature.bytes
    else tx.message.account_keys.flatMap Pubkey.bytes)

/-- PohGenerator::tick. The counter is a u64 incremented once per hash; with
both counter and hashes_per_tick below 2^64 the loop total is their sum
reduced mod 2^64. -/
def PohGenerator.tick (g : PohGenerator) : PohGenerator :=
  let h := iterSha g.hashes_per_tick g.current_hash
  let n := (g.num_hashes + g.hashes_per_tick) % 18446744073709551616
  { g with current_hash := h, num_hashes := 0,
           entries := g.entries ++ [{ num_hashes := n, hash := h, transactions := [] }] }

/-- PohGenerator::record. -/
def PohGenerator.record (g : PohGenerator) (transactions : List Transaction) :
    PohGenerator :=
  let tx_hash := hash_transactions transactions
  let h := sha256 (g.current_hash ++ tx_hash)
  let n := (g.num_hashes + 1) % 18446744073709551616
  { g with current_hash := h, num_hashes := 0,
           entries := g.entries ++
             [{ num_hashes := n, hash := h, transactions := transactions }] }

/-- PohGenerator::last_hash. -/
def PohGenerator.last_hash (g : PohGenerator) : List Nat := g.current_hash

/-- The replay loop of poh.rs fn verify, carrying the running chain value. -/
def verifyLoop (current : List Nat) : List Entry → Bool
  | [] => true
  | entry :: rest =>
    let h :=
      if entry.transactions = [] then iterSha entry.num_hashes current
      else sha256 (iterSha (entry.num_hashes - 1) current ++
                   hash_transactions entry.transactions)
    if h = entry.hash then verifyLoop h rest else false

/-- poh.rs, fn verify — replay the chain from the seed. The saturating_sub(1)
on a record entry's num_hashes is Nat truncated subtraction. -/
def verify (seed : List Nat) (entries : List Entry) : Bool :=
  verifyLoop (sha256 seed) entries

/-- A call against the generator: tick() or record(txs). -/
inductive PohOp
  | tick
  | record (transactions : List Transaction)
deriving DecidableEq, Repr

/-- Apply a sequence of tick/record calls to a generator state. -/
def applyOps (g : PohGenerator) : List PohOp → PohGenerator
  | [] => g
  | .tick :: rest => applyOps g.tick rest
  | .record txs :: rest => applyOps (g.record txs) rest

/-! ## Helper lemmas -/

instance {ε α : Type} [DecidableEq ε] [DecidableEq α] : DecidableEq (Except ε α) :=
  fun x y =>
    match x, y with
    | .error a, .error b => decidable_of_iff (a = b) (by simp)
    | .error _, .ok _ => .isFalse (by simp)
    | .ok _, .error _ => .isFalse (by simp)
    | .ok a, .ok b => decidable_of_iff (a = b) (by simp)

/-- A fold that appends a chunk per element is the initial buffer followed by
the concatenation of the chunks. -/
theorem foldl_append_eq_flatMap {α β : Type} (f : α → List β) (l : List α)
    (init : List β) :
    List.foldl (fun b x => b ++ f x) init l = init ++ l.flatMap f := by
  induction l generalizing init with
  | nil => simp
  | cons x xs ih => simp [ih, List.append_assoc]

/-- Sanity check against the FIPS test vector: the digest of the empty string. -/
example : sha256 [] =
    [0xe3, 0xb0, 0xc4, 0x42, 0x98, 0xfc, 0x1c, 0x14,
     0x9a, 0xfb, 0xf4, 0xc8, 0x99, 0x6f, 0xb9, 0x24,
     0x27, 0xae, 0x41, 0xe4, 0x64, 0x9b, 0x93, 0x4c,
     0xa4, 0x95, 0x99, 0x1b, 0x78, 0x52, 0xb8, 0x55] := by decide

/-- Sanity check against the FIPS test vector: the digest of "abc". -/
example : sha256 [0x61, 0x62, 0x63] =
    [0xba, 0x78, 0x16, 0xbf, 0x8f, 0x01, 0xcf, 0xea,
     0x41, 0x41, 0x40, 0xde, 0x5d, 0xae, 0x22, 0x23,
     0xb0, 0x03, 0x61, 0xa3, 0x96, 0x17, 0x7a, 0x9c,
     0xb4, 0x10, 0xff, 0x61, 0xf2, 0x00, 0x15, 0xad] := by decide

/-! ## C9 — role classification -/

/-- C9: for every message whose header satisfies S + Rs + Ru <= N, Rs <= S and
Ru <= N - S, and every index i < N, is_signer(i) holds iff i < S, and
is_writable(i) holds iff i < S - Rs or S <= i < N - Ru (the four-group
partition of the key list). -/
theorem role_classification (m : Message) (i : Nat)
    (h1 : m.header.num_required_signatures + m.header.num_readonly_signed_accounts +
          m.header.num_readonly_unsigned_accounts ≤ m.account_keys.length)
    (h2 : m.header.num_readonly_signed_accounts ≤ m.header.num_required_signatures)
    (h3 : m.header.num_readonly_unsigned_accounts ≤
          m.account_keys.length - m.header.num_required_signatures)
    (hi : i < m.account_keys.length) :
    (m.is_signer i = true ↔ i < m.header.num_required_signatures) ∧
    (m.is_writable i = true ↔
      (i < m.header.num_required_signatures - m.header.num_readonly_signed_accounts ∨
       (m.header.num_required_signatures ≤ i ∧
        i < m.account_keys.length - m.header.num_readonly_unsigned_accounts))) := by
  refine ⟨by simp [Message.is_signer], ?_⟩
  by_cases h : i < m.header.num_required_signatures
  · simp only [Message.is_writable, if_pos h, decide_eq_true_eq]
    omega
  · simp only [Message.is_writable, if_neg h, decide_eq_true_eq]
    omega

/-- Witness for C9 at a concrete message with N = 4, S = 2, Rs = 1, Ru = 1 and
index 1 (a readonly signer, hence not writable). -/
theorem role_classification_witness :
    (2 + 1 + 1 ≤ 4 ∧ 1 ≤ 2 ∧ 1 ≤ 4 - 2 ∧ 1 < 4) ∧
    ((Message.mk ⟨2, 1, 1⟩ [⟨[1]⟩, ⟨[2]⟩, ⟨[3]⟩, ⟨[4]⟩] ⟨[]⟩ []).is_signer 1 = true ↔
       1 < 2) ∧
    ((Message.mk ⟨2, 1, 1⟩ [⟨[1]⟩, ⟨[2]⟩, ⟨[3]⟩, ⟨[4]⟩] ⟨[]⟩ []).is_writable 1 = true ↔
       (1 < 2 - 1 ∨ (2 ≤ 1 ∧ 1 < 4 - 1))) :=
  ⟨by decide,
   role_classification (Message.mk ⟨2, 1, 1⟩ [⟨[1]⟩, ⟨[2]⟩, ⟨[3]⟩, ⟨[4]⟩] ⟨[]⟩ []) 1
     (by decide) (by decide) (by decide) (by decide)⟩

/-! ## C3 — Transfer credit overflow -/

/-- C3: the claim (and the spec) say a credit that would exceed 2^64 - 1 is an
error, but the Transfer arm adds the credit with an unchecked u64 addition.
This theorem evaluates the code at the failing input: the source holds
2^64 - 1 lamports, the destination holds 2, and the full 2^64 - 1 is
transferred; process returns Ok and the destination balance wraps to 1. -/
theorem transfer_credit_overflow_wraps :
    process (.transfer 18446744073709551615)
      [{ lamports := 18446744073709551615, data := [], owner := SYSTEM_PROGRAM_ID,
         executable := false, rent_epoch := 0 },
       { lamports := 2, data := [], owner := SYSTEM_PROGRAM_ID,
         executable := false, rent_epoch := 0 }] =
    .ok [{ lamports := 0, data := [], owner := SYSTEM_PROGRAM_ID,
           executable := false, rent_epoch := 0 },
         { lamports := 1, data := [], owner := SYSTEM_PROGRAM_ID,
           executable := false, rent_epoch := 0 }] := by decide

/-! ## C7 — CreateAccount -/

/-- C7: the CreateAccount arm fails with NotEnoughAccounts below two accounts;
with two or more it fails with AccountAlreadyInUse when the new account has
lamports or data, then AccountNotOwnedBySystem when the funder is not
System-owned, then InsufficientFunds when the funder balance is below the
requested balance; otherwise it debits the funder and initialises the new
account with the balance, the owner, and exactly space zero data bytes. -/
theorem createaccount_spec (bal space : Nat) (owner : Pubkey)
    (accounts : List AccountSharedData) :
    (accounts.length < 2 →
       process (.createAccount bal space owner) accounts = .error .notEnoughAccounts) ∧
    (∀ a0 a1 rest, accounts = a0 :: a1 :: rest →
      ((a1.lamports > 0 ∨ a1.data ≠ []) →
         process (.createAccount bal space owner) accounts = .error .accountAlreadyInUse) ∧
      (a1.lamports = 0 → a1.data = [] → a0.owner ≠ SYSTEM_PROGRAM_ID →
         process (.createAccount bal space owner) accounts = .error .accountNotOwnedBySystem) ∧
      (a1.lamports = 0 → a1.data = [] → a0.owner = SYSTEM_PROGRAM_ID → a0.lamports < bal →
         process (.createAccount bal space owner) accounts = .error .insufficientFunds) ∧
      (a1.lamports = 0 → a1.data = [] → a0.owner = SYSTEM_PROGRAM_ID → bal ≤ a0.lamports →
         process (.createAccount bal space owner) accounts =
           .ok ({ a0 with lamports := a0.lamports - bal } ::
                { a1 with lamports := bal, owner := owner,
                          data := List.replicate space 0 } :: rest))) := by
  constructor
  · intro hlen
    match accounts, hlen with
    | [], _ => rfl
    | [a], _ => rfl
  · rintro a0 a1 rest rfl
    refine ⟨?_, ?_, ?_, ?_⟩
    · intro h
      simp [process, h]
    · intro h1 h2 h3
      simp [process, h1, h2, h3]
    · intro h1 h2 h3 h4
      simp [process, h1, h2, h3, Nat.not_lt.mpr, h4]
    · intro h1 h2 h3 h4
      simp [process, h1, h2, h3, Nat.not_lt.mpr h4, listResize]

/-- Witness for C7, taking the success branch at a concrete input: a funder
with 7 lamports creating a 3-byte account funded with 5. -/
theorem createaccount_spec_witness :
    ([{ lamports := 7, data := [], owner := SYSTEM_PROGRAM_ID, executable := false,
        rent_epoch := 0 },
      (defaultAccount : AccountSharedData)] =
      ({ lamports := 7, data := [], owner := SYSTEM_PROGRAM_ID, executable := false,
         rent_epoch := 0 } : AccountSharedData) :: defaultAccount :: []) ∧
    process (.createAccount 5 3 ⟨[9]⟩)
      [{ lamports := 7, data := [], owner := SYSTEM_PROGRAM_ID, executable := false,
         rent_epoch := 0 }, defaultAccount] =
      .ok [{ lamports := 2, data := [], owner := SYSTEM_PROGRAM_ID, executable := false,
             rent_epoch := 0 },
           { lamports := 5, data := [0, 0, 0], owner := ⟨[9]⟩, executable := false,
             rent_epoch := 0 }] :=
  ⟨rfl,
   by
    have h := (createaccount_spec 5 3 ⟨[9]⟩
      [{ lamports := 7, data := [], owner := SYSTEM_PROGRAM_ID, executable := false,
         rent_epoch := 0 }, defaultAccount]).2
      { lamports := 7, data := [], owner := SYSTEM_PROGRAM_ID, executable := false,
        rent_epoch := 0 } defaultAccount [] rfl
    have h2 := h.2.2.2 rfl rfl rfl (by decide)
    simpa using h2⟩

/-! ## C6 — canonical message serialization -/

/-- The byte layout stated by the spec, written as one concatenation: three
header bytes, the key count byte, the 32-byte keys, the blockhash, the
instruction count byte, then per instruction the program index byte, the
account count byte, the account index bytes, the 2-byte little-endian data
length and the data. -/
def canonicalMessageBytes (msg : Message) : List Nat :=
  [msg.header.num_required_signatures,
   msg.header.num_readonly_signed_accounts,
   msg.header.num_readonly_unsigned_accounts,
   msg.account_keys.length % 256] ++
  msg.account_keys.flatMap Pubkey.bytes ++
  msg.recent_blockhash.bytes ++
  [msg.instructions.length % 256] ++
  msg.instructions.flatMap (fun ix =>
    [ix.program_id_index, ix.accounts.length % 256] ++ ix.accounts ++
    le16 ix.data.length ++ ix.data)

/-- C6: serialize_message produces exactly the canonical layout, and identical
messages always yield identical bytes. -/
theorem serialize_message_canonical (msg : Message) :
    serialize_message msg = canonicalMessageBytes msg ∧
    ∀ m2 : Message, msg = m2 → serialize_message msg = serialize_message m2 := by
  refine ⟨?_, fun m2 h => by rw [h]⟩
  simp only [serialize_message, canonicalMessageBytes]
  rw [show (fun (b : List Nat) (key : Pubkey) => b ++ key.bytes) =
        (fun (b : List Nat) (key : Pubkey) => b ++ Pubkey.bytes key) from rfl]
  rw [foldl_append_eq_flatMap]
  rw [show (fun (b : List Nat) (ix : CompiledInstruction) =>
        b ++ [ix.program_id_index] ++ [ix.accounts.length % 256] ++ ix.accounts ++
          le16 ix.data.length ++ ix.data) =
      (fun (b : List Nat) (ix : CompiledInstruction) =>
        b ++ ([ix.program_id_index, ix.accounts.length % 256] ++ ix.accounts ++
          le16 ix.data.length ++ ix.data)) from
    funext fun b => funext fun ix => by simp [List.append_assoc]]
  rw [foldl_append_eq_flatMap]
  simp [List.append_assoc]

/-! ## C1 — SVM atomicity -/

theorem load_store_self (db : AccountsDB) (k : Pubkey) (a : AccountSharedData) :
    (db.store k a).load k = some a := by
  simp [AccountsDB.load, AccountsDB.store]

theorem load_store_ne (db : AccountsDB) (k q : Pubkey) (a : AccountSharedData)
    (h : q ≠ k) : (db.store k a).load q = db.load q := by
  simp [AccountsDB.load, AccountsDB.store, h]

theorem writeBack_length (idxs : List Nat) (accs ws : List AccountSharedData) :
    (writeBack ws idxs accs).length = ws.length := by
  induction idxs generalizing accs ws with
  | nil => simp [writeBack]
  | cons i is ih =>
    cases accs with
    | nil => simp [writeBack]
    | cons a rest => simp [writeBack, ih]

theorem executeInstructions_length (m : Message) (ixs : List CompiledInstruction)
    (ws ws2 : List AccountSharedData) (ixIndex : Nat)
    (h : executeInstructions m ws ixIndex ixs = .ok ws2) : ws2.length = ws.length := by
  induction ixs generalizing ws ixIndex with
  | nil =>
    simp only [executeInstructions] at h
    cases h
    rfl
  | cons ix rest ih =>
    simp only [executeInstructions] at h
    split at h
    · cases h
    · split at h
      · cases h
      · split at h
        · split at h
          · cases h
          · split at h
            · cases h
            · rw [ih _ _ h, writeBack_length]
        · cases h

theorem loadWorkingSet_length (db : AccountsDB) (m : Message) :
    (loadWorkingSet db m).length = m.account_keys.length := by
  simp [loadWorkingSet]

theorem commit_load_notmem (db : AccountsDB) (keys : List Pubkey)
    (ws : List AccountSharedData) (k : Pubkey) (h : k ∉ keys) :
    (commit db keys ws).load k = db.load k := by
  induction keys generalizing db ws with
  | nil => simp [commit]
  | cons k0 ks ih =>
    cases ws with
    | nil => simp [commit]
    | cons a rest =>
      simp only [commit]
      rw [ih _ _ (by simp at h; exact h.2)]
      exact load_store_ne _ _ _ _ (by simp at h; exact h.1)

theorem commit_load_last (keys : List Pubkey) (ws : List AccountSharedData)
    (db : AccountsDB) (i : Nat) (hi : i < keys.length) (hw : i < ws.length)
    (hlast : ∀ j, i < j → j < keys.length →
       keys.getD j SYSTEM_PROGRAM_ID ≠ keys.getD i SYSTEM_PROGRAM_ID) :
    (commit db keys ws).load (keys.getD i SYSTEM_PROGRAM_ID) =
      some (ws.getD i defaultAccount) := by
  induction keys generalizing db ws i with
  | nil => cases hi
  | cons k0 ks ih =>
    cases ws with
    | nil => cases hw
    | cons a rest =>
      cases i with
      | zero =>
        have hk0 : k0 ∉ ks := by
          intro hmem
          obtain ⟨n, hn⟩ := List.get_of_mem hmem
          refine hlast (n.1 + 1) (Nat.succ_pos _) (by simpa using n.2) ?_
          simp [List.getD_cons_succ, List.getD_cons_zero]
          simpa [List.get_eq_getElem] using hn
        simp only [commit, List.getD_cons_zero]
        rw [commit_load_notmem _ _ _ _ hk0]
        exact load_store_self _ _ _
      | succ n =>
        simp only [commit, List.getD_cons_succ]
        refine ih rest (db.store k0 a) n (by simpa using hi) (by simpa using hw) ?_
        intro j hj hjlen
        have := hlast (j + 1) (by omega) (by simpa using hjlen)
        simpa [List.getD_cons_succ] using this

/-- C1: if execute returns an error the account store is unchanged; if it
returns Ok, the store is the commit of the final working set, so every
(account_keys[i], working_set[i]) pair has been stored — in particular, at
every index that is the last occurrence of its key, loading that key yields
the working-set entry. -/
theorem svm_execute_atomic (tx : Transaction) (db : AccountsDB) :
    (∀ e, (execute tx db).1 = .error e → (execute tx db).2 = db) ∧
    (∀ ws, executeInstructions tx.message (loadWorkingSet db tx.message) 0
             tx.message.instructions = .ok ws →
       (execute tx db).2 = commit db tx.message.account_keys ws ∧
       ∀ i, i < tx.message.account_keys.length →
         (∀ j, i < j → j < tx.message.account_keys.length →
            tx.message.account_keys.getD j SYSTEM_PROGRAM_ID ≠
            tx.message.account_keys.getD i SYSTEM_PROGRAM_ID) →
         ((execute tx db).2).load (tx.message.account_keys.getD i SYSTEM_PROGRAM_ID) =
           some (ws.getD i defaultAccount)) := by
  constructor
  · intro e he
    simp only [execute] at he ⊢
    split at he
    · rfl
    · cases he
  · intro ws hws
    have hlen : ws.length = tx.message.account_keys.length := by
      rw [executeInstructions_length _ _ _ _ _ hws, loadWorkingSet_length]
    constructor
    · simp only [execute, hws]
    · intro i hi hlast
      simp only [execute, hws]
      exact commit_load_last _ _ _ _ hi (by omega) hlast

/-- Witness for C1: a transaction invoking an unknown program errors and
leaves the (empty) store unchanged. -/
theorem svm_execute_atomic_witness :
    ((execute ⟨[], ⟨⟨0, 0, 0⟩, [⟨[1]⟩], ⟨[]⟩, [⟨0, [], []⟩]⟩⟩ AccountsDB.new).1 =
       .error (.unknownProgram 0)) ∧
    (execute ⟨[], ⟨⟨0, 0, 0⟩, [⟨[1]⟩], ⟨[]⟩, [⟨0, [], []⟩]⟩⟩ AccountsDB.new).2 =
      AccountsDB.new :=
  ⟨by decide,
   (svm_execute_atomic ⟨[], ⟨⟨0, 0, 0⟩, [⟨[1]⟩], ⟨[]⟩, [⟨0, [], []⟩]⟩⟩ AccountsDB.new).1
     (.unknownProgram 0) (by decide)⟩

/-! ## C10 — duplicate account index in a Transfer -/

/-- C10: when a single Transfer instruction lists the same working-set index in
both account positions and execution succeeds, the write-back loop stores the
debited copy first and the credited copy second, so last-write-wins keeps the
credited copy: the account ends with its old balance plus the amount, and the
store's total lamports grow by the amount instead of being conserved. -/
theorem duplicate_index_transfer_inflates (k : Pubkey) (a : AccountSharedData)
    (amt : Nat) (d : List Nat) (db : AccountsDB) (sigs : List Signature)
    (bh : Hash) (hdr : MessageHeader)
    (hdec : decode d = .ok (.transfer amt))
    (hk : k ≠ SYSTEM_PROGRAM_ID)
    (hload : db.load k = some a)
    (hown : a.owner = SYSTEM_PROGRAM_ID)
    (hbal : amt ≤ a.lamports)
    (hov : a.lamports + amt < 18446744073709551616) :
    (execute ⟨sigs, ⟨hdr, [k, SYSTEM_PROGRAM_ID], bh, [⟨1, [0, 0], d⟩]⟩⟩ db).1 =
      .ok () ∧
    ((execute ⟨sigs, ⟨hdr, [k, SYSTEM_PROGRAM_ID], bh, [⟨1, [0, 0], d⟩]⟩⟩ db).2).load k =
      some { a with lamports := a.lamports + amt } := by
  have hnl : ¬ a.lamports < amt := Nat.not_lt.mpr hbal
  have hmod : (a.lamports + amt) % 18446744073709551616 = a.lamports + amt :=
    Nat.mod_eq_of_lt hov
  have hrun : executeInstructions ⟨hdr, [k, SYSTEM_PROGRAM_ID], bh, [⟨1, [0, 0], d⟩]⟩
      (loadWorkingSet db ⟨hdr, [k, SYSTEM_PROGRAM_ID], bh, [⟨1, [0, 0], d⟩]⟩) 0
      [⟨1, [0, 0], d⟩] =
      .ok [{ a with lamports := (a.lamports + amt) % 18446744073709551616 },
           (db.load SYSTEM_PROGRAM_ID).getD defaultAccount] := by
    simp only [loadWorkingSet, List.map_cons, List.map_nil, hload, Option.getD_some]
    simp only [executeInstructions, List.get?_cons_succ, List.get?_cons_zero,
      gatherIxAccounts, Except.map, hdec]
    simp [process, hown, hnl, writeBack]
  refine ⟨?_, ?_⟩
  · simp only [execute, hrun]
  · simp only [execute, hrun, commit]
    rw [load_store_ne _ _ _ _ hk, load_store_self, hmod]

/-- Witness for C10: an account holding 5 lamports, a self-transfer of 3 with
duplicated index, ending at 8 lamports. -/
theorem duplicate_index_transfer_inflates_witness :
    (decode [2, 0, 0, 0, 3, 0, 0, 0, 0, 0, 0, 0] =
       .ok (SystemInstruction.transfer 3)) ∧
    (execute ⟨[], ⟨⟨0, 0, 0⟩, [⟨[7]⟩, SYSTEM_PROGRAM_ID], ⟨[]⟩,
        [⟨1, [0, 0], [2, 0, 0, 0, 3, 0, 0, 0, 0, 0, 0, 0]⟩]⟩⟩
      ⟨fun q => if q = ⟨[7]⟩ then
          some { lamports := 5, data := [], owner := SYSTEM_PROGRAM_ID,
                 executable := false, rent_epoch := 0 }
        else none⟩).1 = .ok () ∧
    ((execute ⟨[], ⟨⟨0, 0, 0⟩, [⟨[7]⟩, SYSTEM_PROGRAM_ID], ⟨[]⟩,
        [⟨1, [0, 0], [2, 0, 0, 0, 3, 0, 0, 0, 0, 0, 0, 0]⟩]⟩⟩
      ⟨fun q => if q = ⟨[7]⟩ then
          some { lamports := 5, data := [], owner := SYSTEM_PROGRAM_ID,
                 executable := false, rent_epoch := 0 }
        else none⟩).2).load ⟨[7]⟩ =
      some { lamports := 8, data := [], owner := SYSTEM_PROGRAM_ID,
             executable := false, rent_epoch := 0 } :=
  ⟨by decide,
   duplicate_index_transfer_inflates ⟨[7]⟩
     { lamports := 5, data := [], owner := SYSTEM_PROGRAM_ID,
       executable := false, rent_epoch := 0 }
     3 [2, 0, 0, 0, 3, 0, 0, 0, 0, 0, 0, 0]
     ⟨fun q => if q = ⟨[7]⟩ then
         some { lamports := 5, data := [], owner := SYSTEM_PROGRAM_ID,
                executable := false, rent_epoch := 0 }
       else none⟩
     [] ⟨[]⟩ ⟨0, 0, 0⟩ (by decide) (by decide) rfl rfl (by decide) (by decide)⟩

/-! ## PoH replay helpers -/

/-- The chain value verify computes for one entry from the running value. -/
def replayEntry (current : List Nat) (entry : Entry) : List Nat :=
  if entry.transactions = [] then iterSha entry.num_hashes current
  else sha256 (iterSha (entry.num_hashes - 1) current ++
               hash_transactions entry.transactions)

theorem verifyLoop_cons (current : List Nat) (e : Entry) (rest : List Entry) :
    verifyLoop current (e :: rest) =
      if replayEntry current e = e.hash then verifyLoop (replayEntry current e) rest
      else false := by
  simp only [verifyLoop, replayEntry]

/-- Replay a list of entries, returning the final chain value when every
entry's hash matches and nothing otherwise. -/
def replayOk (current : List Nat) : List Entry → Option (List Nat)
  | [] => some current
  | e :: rest => if replayEntry current e = e.hash then replayOk e.hash rest else none

theorem verifyLoop_eq_isSome (es : List Entry) (current : List Nat) :
    verifyLoop current es = (replayOk current es).isSome := by
  induction es generalizing current with
  | nil => simp [verifyLoop, replayOk]
  | cons e rest ih =>
    rw [verifyLoop_cons]
    simp only [replayOk]
    by_cases h : replayEntry current e = e.hash
    · rw [if_pos h, if_pos h, h, ih]
    · simp [h]

theorem replayOk_append (es es2 : List Entry) (current : List Nat) :
    replayOk current (es ++ es2) =
      (replayOk current es).bind fun h => replayOk h es2 := by
  induction es generalizing current with
  | nil => simp [replayOk]
  | cons e rest ih =>
    simp only [List.cons_append, replayOk]
    by_cases h : replayEntry current e = e.hash
    · rw [if_pos h, if_pos h]
      exact ih e.hash
    · simp [h]

/-- The generator invariant: the recorded entries replay from the seed to the
current chain value, the counter is reset, and hashes_per_tick fits in u64. -/
def pohInvariant (seed : List Nat) (g : PohGenerator) : Prop :=
  replayOk (sha256 seed) g.entries = some g.current_hash ∧ g.num_hashes = 0 ∧
  g.hashes_per_tick < 18446744073709551616

theorem pohInvariant_new (seed : List Nat) (hpt : Nat)
    (hhpt : hpt < 18446744073709551616) :
    pohInvariant seed (PohGenerator.new seed hpt) := ⟨rfl, rfl, hhpt⟩

theorem pohInvariant_tick (seed : List Nat) (g : PohGenerator)
    (h : pohInvariant seed g) : pohInvariant seed g.tick := by
  obtain ⟨hrep, hcnt, hhpt⟩ := h
  refine ⟨?_, rfl, hhpt⟩
  simp only [PohGenerator.tick, hcnt, Nat.zero_add, Nat.mod_eq_of_lt hhpt]
  rw [replayOk_append, hrep]
  simp [replayOk, replayEntry]

theorem pohInvariant_record (seed : List Nat) (g : PohGenerator)
    (txs : List Transaction) (h : pohInvariant seed g) (htxs : txs ≠ []) :
    pohInvariant seed (g.record txs) := by
  obtain ⟨hrep, hcnt, hhpt⟩ := h
  refine ⟨?_, rfl, hhpt⟩
  simp only [PohGenerator.record, hcnt, Nat.zero_add]
  rw [replayOk_append, hrep]
  simp [replayOk, replayEntry, htxs, iterSha]

theorem pohInvariant_applyOps (seed : List Nat) (g : PohGenerator) (ops : List PohOp)
    (h : pohInvariant seed g)
    (hne : ∀ txs, PohOp.record txs ∈ ops → txs ≠ []) :
    pohInvariant seed (applyOps g ops) := by
  induction ops generalizing g with
  | nil => exact h
  | cons op rest ih =>
    cases op with
    | tick =>
      exact ih _ (pohInvariant_tick _ _ h) fun txs hmem => hne txs (by simp [hmem])
    | record txs =>
      exact ih _ (pohInvariant_record _ _ _ h (hne txs (by simp)))
        fun t hm => hne t (by simp [hm])

theorem applyOps_num_hashes (g : PohGenerator) (ops : List PohOp)
    (h : g.num_hashes = 0) : (applyOps g ops).num_hashes = 0 := by
  induction ops generalizing g with
  | nil => exact h
  | cons op rest ih =>
    cases op with
    | tick => exact ih _ rfl
    | record txs => exact ih _ rfl

/-! ## C4 — PoH chain consistency -/

/-- C4 (amended): verify(seed, entries) is true after any sequence of tick()
and record(txs) calls from new(seed, hashes_per_tick), provided every
recorded batch is nonempty. Recording an empty batch produces an entry with
no transactions, which verify replays as a tick and rejects. -/
theorem poh_chain_consistency (seed : List Nat) (hpt : Nat) (ops : List PohOp)
    (hhpt : hpt < 18446744073709551616)
    (hne : ∀ txs, PohOp.record txs ∈ ops → txs ≠ []) :
    verify seed (applyOps (PohGenerator.new seed hpt) ops).entries = true := by
  have h := pohInvariant_applyOps seed _ ops (pohInvariant_new seed hpt hhpt) hne
  rw [verify, verifyLoop_eq_isSome, h.1]
  rfl

/-- Counterexample to C4 as stated: recording the empty transaction batch
yields a ledger the verifier rejects. -/
theorem poh_record_empty_batch_fails_verify :
    verify [] (applyOps (PohGenerator.new [] 1) [PohOp.record []]).entries = false := by
  decide

/-- Witness for C4 at a concrete run: one tick then one nonempty record. -/
theorem poh_chain_consistency_witness :
    (1 < 18446744073709551616) ∧
    verify [] (applyOps (PohGenerator.new [] 1)
      [PohOp.tick, PohOp.record [⟨[⟨[5]⟩], ⟨⟨0, 0, 0⟩, [], ⟨[]⟩, []⟩⟩]]).entries = true := by
  refine ⟨by decide, poh_chain_consistency [] 1 _ (by decide) ?_⟩
  rintro txs hmem
  simp only [List.mem_cons, List.not_mem_nil, or_false] at hmem
  rcases hmem with h | h
  · exact PohOp.noConfusion h
  · injection h with h2
    subst h2
    simp

/-! ## C2 — PoH tampering detection -/

/-- Flip bit b of byte k of an entry's hash field. -/
def flipBitInHash (e : Entry) (k b : Nat) : Entry :=
  { e with hash := e.hash.set k (Nat.xor (e.hash.getD k 0) (2 ^ b)) }

theorem xor_two_pow_ne (x b : Nat) : Nat.xor x (2 ^ b) ≠ x := by
  intro h
  have h3 : x ^^^ 2 ^ b = x := h
  have h2 := congrArg (Nat.testBit · b) h3
  simp only [Nat.testBit_xor, Nat.testBit_two_pow_self] at h2
  cases hx : x.testBit b <;> rw [hx] at h2 <;> simp at h2

theorem set_flip_ne (l : List Nat) (k b : Nat) (hk : k < l.length) :
    l.set k (Nat.xor (l.getD k 0) (2 ^ b)) ≠ l := by
  intro h
  have hlen : k < (l.set k (Nat.xor (l.getD k 0) (2 ^ b))).length := by simpa using hk
  have h2 : l.getD k 0 = Nat.xor (l.getD k 0) (2 ^ b) := by
    conv_lhs => rw [← h]
    rw [List.getD_eq_getElem _ _ hlen, List.getElem_set_self]
  exact xor_two_pow_ne _ _ h2.symm

/-- Tampering with one entry's hash field (leaving its num_hashes and
transactions alone) makes the replay loop reject, for any entry list that
replays successfully. -/
theorem verifyLoop_tamper_hash (es : List Entry) (cur : List Nat) (j : Nat) (e2 : Entry)
    (hrep : (replayOk cur es).isSome = true) (hj : j < es.length)
    (hnum : e2.num_hashes = (es.getD j ⟨0, [], []⟩).num_hashes)
    (htx : e2.transactions = (es.getD j ⟨0, [], []⟩).transactions)
    (hhash : e2.hash ≠ (es.getD j ⟨0, [], []⟩).hash) :
    verifyLoop cur (es.set j e2) = false := by
  induction es generalizing cur j with
  | nil => cases hj
  | cons e rest ih =>
    have hsplit : replayEntry cur e = e.hash ∧ (replayOk e.hash rest).isSome = true := by
      by_cases hc : replayEntry cur e = e.hash
      · refine ⟨hc, ?_⟩
        simpa [replayOk, hc] using hrep
      · simp [replayOk, hc] at hrep
    cases j with
    | zero =>
      simp only [List.set_cons_zero]
      rw [verifyLoop_cons]
      have hre : replayEntry cur e2 = replayEntry cur e := by
        simp only [replayEntry, hnum, htx, List.getD_cons_zero]
      rw [hre, hsplit.1, if_neg ?hne]
      case hne =>
        intro hc
        exact hhash (by simpa [List.getD_cons_zero] using hc.symm)
    | succ n =>
      simp only [List.set_cons_succ]
      rw [verifyLoop_cons, hsplit.1, if_pos rfl]
      exact ih e.hash n hsplit.2 (by simpa using hj) (by simpa using hnum)
        (by simpa using htx) (by simpa using hhash)

/-- C2 (amended): in any generator state reachable by ticks and nonempty
records that contains at least one record entry, flipping any single bit of
any entry's hash field makes verify return false. Flips of the num_hashes or
transactions fields are not always detected: the saturating_sub(1) in verify
makes a record entry with num_hashes 0 replay exactly like one with
num_hashes 1 (see the counterexample), and transaction flips are only caught
through SHA-256 collision resistance. -/
theorem poh_hash_bit_flip_detected (seed : List Nat) (hpt : Nat) (ops : List PohOp)
    (j k b : Nat)
    (hhpt : hpt < 18446744073709551616)
    (hne : ∀ txs, PohOp.record txs ∈ ops → txs ≠ [])
    (hrec : ∃ e ∈ (applyOps (PohGenerator.new seed hpt) ops).entries,
       e.transactions ≠ [])
    (hj : j < (applyOps (PohGenerator.new seed hpt) ops).entries.length)
    (hk : k < ((applyOps (PohGenerator.new seed hpt) ops).entries.getD j
            ⟨0, [], []⟩).hash.length) :
    verify seed
      ((applyOps (PohGenerator.new seed hpt) ops).entries.set j
        (flipBitInHash
          ((applyOps (PohGenerator.new seed hpt) ops).entries.getD j ⟨0, [], []⟩)
          k b)) = false := by
  have hinv := pohInvariant_applyOps seed _ ops (pohInvariant_new seed hpt hhpt) hne
  rw [verify]
  refine verifyLoop_tamper_hash _ _ _ _ ?_ hj rfl rfl ?_
  · rw [hinv.1]
    rfl
  · exact set_flip_ne _ _ _ hk

/-- A concrete transaction used in the C2 tampering scenario. -/
def txC2 : Transaction := ⟨[], ⟨⟨0, 0, 0⟩, [], ⟨[]⟩, []⟩⟩

/-- Counterexample to C2 as stated: the reachable state record([txC2]) from
new([], 1) has one record entry with num_hashes 1; flipping the lone set bit
of num_hashes (xor with 1, giving 0) leaves a ledger verify still accepts,
because saturating_sub makes num_hashes 0 and 1 replay identically. -/
theorem poh_numhashes_flip_undetected :
    ((applyOps (PohGenerator.new [] 1) [PohOp.record [txC2]]).entries =
      [{ num_hashes := 1, hash := sha256 (sha256 [] ++ hash_transactions [txC2]),
         transactions := [txC2] }]) ∧
    Nat.xor 1 1 = 0 ∧
    verify [] [{ num_hashes := 0,
                 hash := sha256 (sha256 [] ++ hash_transactions [txC2]),
                 transactions := [txC2] }] = true := by
  refine ⟨?_, by decide, ?_⟩
  · simp [applyOps, PohGenerator.record, PohGenerator.new]
  · simp [verify, verifyLoop, iterSha]

/-- Witness for C2 at the same concrete state: flipping bit 0 of byte 0 of the
record entry's hash is detected. -/
theorem poh_hash_bit_flip_detected_witness :
    ((∃ e ∈ (applyOps (PohGenerator.new [] 1) [PohOp.record [txC2]]).entries,
        e.transactions ≠ []) ∧
     0 < (applyOps (PohGenerator.new [] 1) [PohOp.record [txC2]]).entries.length ∧
     0 < ((applyOps (PohGenerator.new [] 1) [PohOp.record [txC2]]).entries.getD 0
            ⟨0, [], []⟩).hash.length) ∧
    verify []
      ((applyOps (PohGenerator.new [] 1) [PohOp.record [txC2]]).entries.set 0
        (flipBitInHash
          ((applyOps (PohGenerator.new [] 1) [PohOp.record [txC2]]).entries.getD 0
            ⟨0, [], []⟩)
          0 0)) = false := by
  refine ⟨⟨by decide, by decide, by decide⟩, ?_⟩
  refine poh_hash_bit_flip_detected [] 1 [PohOp.record [txC2]] 0 0 0 (by decide) ?_
    (by decide) (by decide) (by decide)
  rintro txs hmem
  simp only [List.mem_cons, List.not_mem_nil, or_false] at hmem
  injection hmem with h2
  subst h2
  simp

/-! ## C8 — record(txs) behaviour -/

/-- C8 (amended): on any reachable generator state, record(txs) mixes
M = hash_transactions(txs) into the chain — current_hash becomes
SHA-256(current_hash || M) — appends the entry
(num_hashes 1, the new hash, txs) and resets the counter; the appended
num_hashes is exactly 1 because every tick and record resets the counter.
M hashes, per transaction, the concatenated signature bytes, falling back to
that transaction's account_keys bytes only for transactions with no
signatures (not for the whole batch, as the claim states). -/
theorem record_appends_single_entry (seed : List Nat) (hpt : Nat) (ops : List PohOp)
    (txs : List Transaction) :
    ((applyOps (PohGenerator.new seed hpt) ops).record txs).current_hash =
      sha256 ((applyOps (PohGenerator.new seed hpt) ops).current_hash ++
              hash_transactions txs) ∧
    ((applyOps (PohGenerator.new seed hpt) ops).record txs).entries =
      (applyOps (PohGenerator.new seed hpt) ops).entries ++
        [{ num_hashes := 1,
           hash := sha256 ((applyOps (PohGenerator.new seed hpt) ops).current_hash ++
                           hash_transactions txs),
           transactions := txs }] ∧
    ((applyOps (PohGenerator.new seed hpt) ops).record txs).num_hashes = 0 ∧
    hash_transactions txs = sha256 (txs.flatMap fun tx =>
      if tx.signatures ≠ [] then tx.signatures.flatMap Signature.bytes
      else tx.message.account_keys.flatMap Pubkey.bytes) := by
  have hcnt := applyOps_num_hashes (PohGenerator.new seed hpt) ops rfl
  refine ⟨rfl, ?_, rfl, rfl⟩
  simp [PohGenerator.record, hcnt]

/-- A transaction carrying one signature with bytes [1], key bytes [2]. -/
def txSigned : Transaction := ⟨[⟨[1]⟩], ⟨⟨0, 0, 0⟩, [⟨[2]⟩], ⟨[]⟩, []⟩⟩

/-- A transaction with no signatures and key bytes [3]. -/
def txUnsigned : Transaction := ⟨[], ⟨⟨0, 0, 0⟩, [⟨[3]⟩], ⟨[]⟩, []⟩⟩

/-- Counterexample to C8's fallback rule as stated: in a batch where one
transaction has signatures and another has none, the code mixes the signed
transaction's signature bytes with the unsigned one's key bytes
(SHA-256 of [1, 3]); the claim's batch-wide fallback would hash all
account_keys bytes (SHA-256 of [2, 3]), and the two digests differ. -/
theorem hash_transactions_mixed_fallback :
    hash_transactions [txSigned, txUnsigned] = sha256 [1, 3] ∧
    sha256 ([txSigned, txUnsigned].flatMap fun tx =>
        tx.message.account_keys.flatMap Pubkey.bytes) = sha256 [2, 3] ∧
    sha256 [1, 3] ≠ sha256 [2, 3] := by
  refine ⟨rfl, rfl, by decide⟩

/-! ## C5 — Bank signature verification -/

/-- Signer i passes under the abstracted ed25519_dalek oracles: its key bytes
parse to a verifying key and its signature verifies over the message bytes. -/
def signerOk {VK : Type} (parse : List Nat → Option VK)
    (verif : VK → List Nat → List Nat → Bool) (messageBytes : List Nat)
    (keys : List Pubkey) (sigs : List Signature) (i : Nat) : Prop :=
  ∃ vk, parse (keys.getD i ⟨[]⟩).bytes = some vk ∧
        verif vk messageBytes (sigs.getD i ⟨[]⟩).bytes = true

theorem get?_eq_some_getD {α : Type} (l : List α) (i : Nat) (d : α)
    (h : i < l.length) : l.get? i = some (l.getD i d) := by
  rw [List.get?_eq_getElem?, List.getElem?_eq_getElem h, List.getD_eq_getElem _ _ h]

theorem forall_lt_succ_shift (P : Nat → Prop) (i n : Nat) :
    (∀ t, t < n + 1 → P (i + t)) ↔ (P i ∧ ∀ t, t < n → P (i + 1 + t)) := by
  constructor
  · intro h
    refine ⟨by simpa using h 0 (Nat.succ_pos _), fun t ht => ?_⟩
    have h2 := h (t + 1) (by omega)
    have h3 : i + (t + 1) = i + 1 + t := by omega
    rwa [h3] at h2
  · rintro ⟨h0, hrest⟩ t ht
    cases t with
    | zero => simpa using h0
    | succ s =>
      have h2 := hrest s (by omega)
      have h3 : i + 1 + s = i + (s + 1) := by omega
      rwa [h3] at h2

theorem verifyFrom_ok_iff {VK : Type} (parse : List Nat → Option VK)
    (verif : VK → List Nat → List Nat → Bool) (mb : List Nat)
    (keys : List Pubkey) (sigs : List Signature) (n i : Nat)
    (hki : i + n ≤ keys.length) (hsi : i + n ≤ sigs.length) :
    verifySignaturesFrom parse verif mb keys sigs i n = some (.ok ()) ↔
      ∀ t, t < n → signerOk parse verif mb keys sigs (i + t) := by
  induction n generalizing i with
  | zero => simp [verifySignaturesFrom]
  | succ n ih =>
    have hk := get?_eq_some_getD keys i ⟨[]⟩ (by omega)
    have hs := get?_eq_some_getD sigs i ⟨[]⟩ (by omega)
    rw [forall_lt_succ_shift]
    simp only [verifySignaturesFrom, hk, hs]
    cases hp : parse (keys.getD i ⟨[]⟩).bytes with
    | none =>
      simp only []
      constructor
      · intro h
        cases h
      · rintro ⟨⟨vk, hvk, _⟩, _⟩
        rw [hp] at hvk
        cases hvk
    | some vk =>
      simp only []
      cases hv : verif vk mb (sigs.getD i ⟨[]⟩).bytes with
      | false =>
        rw [if_neg (by simp [hv])]
        constructor
        · intro h
          cases h
        · rintro ⟨⟨vk2, hvk2, hv2⟩, _⟩
          rw [hp] at hvk2
          cases hvk2
          rw [hv] at hv2
          cases hv2
      | true =>
        rw [if_pos (by simp [hv])]
        rw [ih (i + 1) (by omega) (by omega)]
        constructor
        · intro h
          exact ⟨⟨vk, hp, hv⟩, h⟩
        · rintro ⟨_, h⟩
          exact h

theorem verifyFrom_ne_notEnough {VK : Type} (parse : List Nat → Option VK)
    (verif : VK → List Nat → List Nat → Bool) (mb : List Nat)
    (keys : List Pubkey) (sigs : List Signature) (n i a b : Nat) :
    verifySignaturesFrom parse verif mb keys sigs i n ≠
      some (.error (.notEnoughSignatures a b)) := by
  induction n generalizing i with
  | zero =>
    intro h
    cases h
  | succ n ih =>
    simp only [verifySignaturesFrom]
    cases keys.get? i with
    | none => simp
    | some pubkey =>
      simp only []
      cases sigs.get? i with
      | none => simp
      | some sig =>
        simp only []
        cases parse pubkey.bytes with
        | none =>
          simp only []
          intro h
          cases h
        | some vk =>
          simp only []
          by_cases hv : verif vk mb sig.bytes = true
          · rw [if_pos hv]
            exact ih (i + 1)
          · rw [if_neg hv]
            intro h
            cases h

theorem verifyFrom_invalidKey_iff {VK : Type} (parse : List Nat → Option VK)
    (verif : VK → List Nat → List Nat → Bool) (mb : List Nat)
    (keys : List Pubkey) (sigs : List Signature) (n i m : Nat)
    (hki : i + n ≤ keys.length) (hsi : i + n ≤ sigs.length) :
    verifySignaturesFrom parse verif mb keys sigs i n =
        some (.error (.invalidPublicKey m)) ↔
      (i ≤ m ∧ m < i + n ∧ parse (keys.getD m ⟨[]⟩).bytes = none ∧
       ∀ t, i ≤ t → t < m → signerOk parse verif mb keys sigs t) := by
  induction n generalizing i with
  | zero =>
    constructor
    · intro h
      cases h
    · rintro ⟨h1, h2, _⟩
      omega
  | succ n ih =>
    have hk := get?_eq_some_getD keys i ⟨[]⟩ (by omega)
    have hs := get?_eq_some_getD sigs i ⟨[]⟩ (by omega)
    simp only [verifySignaturesFrom, hk, hs]
    cases hp : parse (keys.getD i ⟨[]⟩).bytes with
    | none =>
      simp only []
      constructor
      · intro h
        have hm : m = i := by
          injection h with h2
          injection h2 with h3
          injection h3 with h4
          omega
        subst hm
        exact ⟨Nat.le_refl _, by omega, hp, fun t h1 h2 => absurd (Nat.lt_of_le_of_lt h1 h2)
          (Nat.lt_irrefl _)⟩
      · rintro ⟨h1, h2, h3, h4⟩
        rcases Nat.eq_or_lt_of_le h1 with h5 | h5
        · rw [h5]
        · exfalso
          obtain ⟨vk, hvk, _⟩ := h4 i (Nat.le_refl _) h5
          rw [hp] at hvk
          cases hvk
    | some vk =>
      simp only []
      cases hv : verif vk mb (sigs.getD i ⟨[]⟩).bytes with
      | false =>
        rw [if_neg (by simp [hv])]
        constructor
        · intro h
          cases h
        · rintro ⟨h1, h2, h3, h4⟩
          exfalso
          rcases Nat.eq_or_lt_of_le h1 with h5 | h5
          · subst h5
            rw [hp] at h3
            cases h3
          · obtain ⟨vk2, hvk2, hv2⟩ := h4 i (Nat.le_refl _) h5
            rw [hp] at hvk2
            cases hvk2
            rw [hv] at hv2
            cases hv2
      | true =>
        rw [if_pos (by simp [hv])]
        rw [ih (i + 1) (by omega) (by omega)]
        constructor
        · rintro ⟨h1, h2, h3, h4⟩
          refine ⟨by omega, by omega, h3, fun t ht1 ht2 => ?_⟩
          rcases Nat.eq_or_lt_of_le ht1 with h5 | h5
          · rw [← h5]
            exact ⟨vk, hp, hv⟩
          · exact h4 t h5 ht2
        · rintro ⟨h1, h2, h3, h4⟩
          have hmi : i ≠ m := by
            intro h
            rw [← h] at h3
            rw [hp] at h3
            cases h3
          refine ⟨by omega, by omega, h3, fun t ht1 ht2 => h4 t (by omega) ht2⟩

theorem verifyFrom_sigFail_iff {VK : Type} (parse : List Nat → Option VK)
    (verif : VK → List Nat → List Nat → Bool) (mb : List Nat)
    (keys : List Pubkey) (sigs : List Signature) (n i m : Nat)
    (hki : i + n ≤ keys.length) (hsi : i + n ≤ sigs.length) :
    verifySignaturesFrom parse verif mb keys sigs i n =
        some (.error (.signatureVerificationFailed m)) ↔
      (i ≤ m ∧ m < i + n ∧
       (∃ vk, parse (keys.getD m ⟨[]⟩).bytes = some vk ∧
          verif vk mb (sigs.getD m ⟨[]⟩).bytes = false) ∧
       ∀ t, i ≤ t → t < m → signerOk parse verif mb keys sigs t) := by
  induction n generalizing i with
  | zero =>
    constructor
    · intro h
      cases h
    · rintro ⟨h1, h2, _⟩
      omega
  | succ n ih =>
    have hk := get?_eq_some_getD keys i ⟨[]⟩ (by omega)
    have hs := get?_eq_some_getD sigs i ⟨[]⟩ (by omega)
    simp only [verifySignaturesFrom, hk, hs]
    cases hp : parse (keys.getD i ⟨[]⟩).bytes with
    | none =>
      simp only []
      constructor
      · intro h
        cases h
      · rintro ⟨h1, h2, ⟨vk, hvk, _⟩, h4⟩
        exfalso
        rcases Nat.eq_or_lt_of_le h1 with h5 | h5
        · rw [← h5] at hvk
          rw [hp] at hvk
          cases hvk
        · obtain ⟨vk2, hvk2, _⟩ := h4 i (Nat.le_refl _) h5
          rw [hp] at hvk2
          cases hvk2
    | some vk =>
      simp only []
      cases hv : verif vk mb (sigs.getD i ⟨[]⟩).bytes with
      | false =>
        rw [if_neg (by simp [hv])]
        constructor
        · intro h
          have hm : m = i := by
            injection h with h2
            injection h2 with h3
            injection h3 with h4
            omega
          subst hm
          exact ⟨Nat.le_refl _, by omega, ⟨vk, hp, hv⟩,
            fun t h1 h2 => absurd (Nat.lt_of_le_of_lt h1 h2) (Nat.lt_irrefl _)⟩
        · rintro ⟨h1, h2, ⟨vk2, hvk2, hv2⟩, h4⟩
          rcases Nat.eq_or_lt_of_le h1 with h5 | h5
          · rw [h5]
          · exfalso
            obtain ⟨vk3, hvk3, hv3⟩ := h4 i (Nat.le_refl _) h5
            rw [hp] at hvk3
            cases hvk3
            rw [hv] at hv3
            cases hv3
      | true =>
        rw [if_pos (by simp [hv])]
        rw [ih (i + 1) (by omega) (by omega)]
        constructor
        · rintro ⟨h1, h2, h3, h4⟩
          refine ⟨by omega, by omega, h3, fun t ht1 ht2 => ?_⟩
          rcases Nat.eq_or_lt_of_le ht1 with h5 | h5
          · rw [← h5]
            exact ⟨vk, hp, hv⟩
          · exact h4 t h5 ht2
        · rintro ⟨h1, h2, ⟨vk2, hvk2, hv2⟩, h4⟩
          have hmi : i ≠ m := by
            intro h
            subst h
            rw [hp] at hvk2
            cases hvk2
            rw [hv] at hv2
            cases hv2
          refine ⟨by omega, by omega, ⟨vk2, hvk2, hv2⟩,
            fun t ht1 ht2 => h4 t (by omega) ht2⟩

/-- C5 (amended): for every transaction whose account_keys list covers its
required signers (S <= number of keys), with ed25519_dalek abstracted by the
parse/verif oracles: the result is NotEnoughSignatures(S, got) iff fewer than
S signatures are present; it is Ok iff all S signers pass; it is
InvalidPublicKey(i) iff i is below S, signer i's key fails to parse, and all
earlier signers pass (the loop halts at the first failing index); and it is
SignatureVerificationFailed(i) iff i is below S, signer i's key parses but
its signature fails, and all earlier signers pass. For a transaction with
fewer account keys than required signers, the code instead panics on the
out-of-bounds account_keys[i] (the counterexample), which the claim does not
allow. -/
theorem verify_signatures_spec {VK : Type} (parse : List Nat → Option VK)
    (verif : VK → List Nat → List Nat → Bool) (tx : Transaction)
    (hkeys : tx.message.header.num_required_signatures ≤
             tx.message.account_keys.length) :
    (verify_signatures parse verif tx =
        some (.error (.notEnoughSignatures tx.message.header.num_required_signatures
          tx.signatures.length)) ↔
      tx.signatures.length < tx.message.header.num_required_signatures) ∧
    (verify_signatures parse verif tx = some (.ok ()) ↔
      (tx.message.header.num_required_signatures ≤ tx.signatures.length ∧
       ∀ i, i < tx.message.header.num_required_signatures →
         signerOk parse verif (serialize_message tx.message) tx.message.account_keys
           tx.signatures i)) ∧
    (∀ i, verify_signatures parse verif tx = some (.error (.invalidPublicKey i)) ↔
      (tx.message.header.num_required_signatures ≤ tx.signatures.length ∧
       i < tx.message.header.num_required_signatures ∧
       parse (tx.message.account_keys.getD i ⟨[]⟩).bytes = none ∧
       ∀ j, j < i → signerOk parse verif (serialize_message tx.message)
         tx.message.account_keys tx.signatures j)) ∧
    (∀ i, verify_signatures parse verif tx =
        some (.error (.signatureVerificationFailed i)) ↔
      (tx.message.header.num_required_signatures ≤ tx.signatures.length ∧
       i < tx.message.header.num_required_signatures ∧
       (∃ vk, parse (tx.message.account_keys.getD i ⟨[]⟩).bytes = some vk ∧
          verif vk (serialize_message tx.message)
            (tx.signatures.getD i ⟨[]⟩).bytes = false) ∧
       ∀ j, j < i → signerOk parse verif (serialize_message tx.message)
         tx.message.account_keys tx.signatures j)) := by
  by_cases hlt : tx.signatures.length < tx.message.header.num_required_signatures
  · have hres : verify_signatures parse verif tx =
        some (.error (.notEnoughSignatures tx.message.header.num_required_signatures
          tx.signatures.length)) := by
      simp [verify_signatures, hlt]
    refine ⟨by simp [hres, hlt], ?_, ?_, ?_⟩
    · rw [hres]
      constructor
      · intro h
        exact absurd h (by simp)
      · rintro ⟨hle, _⟩
        omega
    · intro i
      rw [hres]
      constructor
      · intro h
        simp at h
      · rintro ⟨hle, _⟩
        omega
    · intro i
      rw [hres]
      constructor
      · intro h
        simp at h
      · rintro ⟨hle, _⟩
        omega
  · have hge : tx.message.header.num_required_signatures ≤ tx.signatures.length :=
      Nat.le_of_not_lt hlt
    have hres : verify_signatures parse verif tx =
        verifySignaturesFrom parse verif (serialize_message tx.message)
          tx.message.account_keys tx.signatures 0
          tx.message.header.num_required_signatures := by
      simp [verify_signatures, hlt]
    refine ⟨?_, ?_, ?_, ?_⟩
    · rw [hres]
      constructor
      · intro h
        exact absurd h (verifyFrom_ne_notEnough _ _ _ _ _ _ _ _ _)
      · intro h
        omega
    · rw [hres, verifyFrom_ok_iff _ _ _ _ _ _ 0 (by omega) (by omega)]
      constructor
      · intro h
        exact ⟨hge, fun i hi => by simpa using h i hi⟩
      · rintro ⟨_, h⟩ t ht
        simpa using h t ht
    · intro i
      rw [hres, verifyFrom_invalidKey_iff _ _ _ _ _ _ 0 i (by omega) (by omega)]
      constructor
      · rintro ⟨_, h2, h3, h4⟩
        exact ⟨hge, by omega, h3, fun j hj => h4 j (Nat.zero_le _) hj⟩
      · rintro ⟨_, h2, h3, h4⟩
        exact ⟨Nat.zero_le _, by omega, h3, fun t _ ht => h4 t ht⟩
    · intro i
      rw [hres, verifyFrom_sigFail_iff _ _ _ _ _ _ 0 i (by omega) (by omega)]
      constructor
      · rintro ⟨_, h2, h3, h4⟩
        exact ⟨hge, by omega, h3, fun j hj => h4 j (Nat.zero_le _) hj⟩
      · rintro ⟨_, h2, h3, h4⟩
        exact ⟨Nat.zero_le _, by omega, h3, fun t _ ht => h4 t ht⟩

/-- Witness for C5: one required signer whose key and signature the oracles
accept; the Bank returns Ok. -/
theorem verify_signatures_spec_witness :
    (1 ≤ 1) ∧
    verify_signatures (fun _ => some ()) (fun _ _ _ => true)
      ⟨[⟨[9]⟩], ⟨⟨1, 0, 0⟩, [⟨[8]⟩], ⟨[]⟩, []⟩⟩ = some (.ok ()) := by
  refine ⟨Nat.le_refl _, ?_⟩
  exact (verify_signatures_spec (fun _ => some ()) (fun _ _ _ => true)
      ⟨[⟨[9]⟩], ⟨⟨1, 0, 0⟩, [⟨[8]⟩], ⟨[]⟩, []⟩⟩ (by decide)).2.1.mpr
    ⟨by decide, fun i hi => ⟨(), rfl, rfl⟩⟩

/-- Counterexample to C5 as stated: a transaction declaring one required
signature and carrying one, but with an empty account_keys list. The claim
(quantified over every transaction) predicts one of the enumerated results —
Ok, under oracles that accept every key and signature — but the code indexes
account_keys[0] out of bounds and panics, modelled as none. -/
theorem verify_signatures_short_keys_panics :
    verify_signatures (fun _ => some ()) (fun _ _ _ => true)
      ⟨[⟨[9]⟩], ⟨⟨1, 0, 0⟩, [], ⟨[]⟩, []⟩⟩ = none ∧
    (none : Option (Except BankError Unit)) ≠ some (.ok ()) :=
  ⟨rfl, by simp⟩

/-- Witness for C6 at a concrete two-instruction message. -/
theorem serialize_message_canonical_witness :
    serialize_message
      ⟨⟨1, 0, 1⟩, [⟨[4]⟩, ⟨[5]⟩], ⟨[6]⟩, [⟨1, [0, 1], [2, 0]⟩, ⟨0, [1], []⟩]⟩ =
    canonicalMessageBytes
      ⟨⟨1, 0, 1⟩, [⟨[4]⟩, ⟨[5]⟩], ⟨[6]⟩, [⟨1, [0, 1], [2, 0]⟩, ⟨0, [1], []⟩]⟩ :=
  (serialize_message_canonical
    ⟨⟨1, 0, 1⟩, [⟨[4]⟩, ⟨[5]⟩], ⟨[6]⟩, [⟨1, [0, 1], [2, 0]⟩, ⟨0, [1], []⟩]⟩).1
